import Mathlib

/-!
# Dune-CLI: a verification model of the agent reasoning loop and its tools

This file is a shallow embedding, in Lean, of the parts of the Dune-CLI
repository (a command-line LLM agent) that its specification's claims are
about:

* `src/dune/agent.py` — the `Agent` class: the blocking reasoning loop
  (`Agent.execute`), the streaming loop (`Agent.execute_stream`), the
  per-call helper `Agent._execute_tool`, and the dangerous-tool approval
  policy;
* `src/dune/tools/__init__.py` — `ToolRegistry`;
* `src/dune/tools/read_file.py`, `write_file.py`, `shell.py`, `edit.py` —
  the four tools the claims mention (the remaining registered tools —
  grep, ls, glob, read_many_files, web_search — play no role in any claim
  and are not modelled; the agent-side definitions are parametric in the
  registry wherever a statement quantifies over tools);
* `src/dune/groq_client.py` — `GroqLLMEndpoint.generate` (the blocking
  reply translator).

Modelling conventions:

* Python dict/JSON values become the inductive `JValue`; `json.loads`
  becomes `pyJsonLoads` (a recursive-descent parser covering JSON objects,
  arrays, strings with the common escapes, integers, booleans and null —
  floats and `\u` escapes, which no claim exercises, are not accepted);
  `json.dumps` becomes `renderJson`.
* The filesystem is an association list from paths (component lists) to
  file contents (strings); `pathlib` path resolution against the process
  working directory is explicit (`resolveAgainst`).  Byte-level truncation
  of file reads is modelled on characters.
* Console output is not modelled, but the *interactive approval prompts*
  (`rich.prompt.Prompt.ask`) are: each prompt consumes one answer from an
  oracle `ans : Nat → Bool` (`true` = the user typed "y") and records an
  observation event.  Model calls and tool invocations also record events,
  so that claims about "no prompt is issued" / "the tool is never invoked" /
  "exactly n model calls" are statable.
* Python exceptions that the modelled code can raise and that are not
  caught locally become the `PyExc` error of an `Except`; `subprocess.run`
  and the LLM backends are oracles supplied as function parameters.
-/

/-- A JSON-like value: the type of tool arguments and tool results
(Python dicts/lists/scalars as produced by `json.loads`). -/
inductive JValue where
  | null
  | bool (b : Bool)
  | num (n : Int)
  | str (s : String)
  | arr (xs : List JValue)
  | obj (kvs : List (String × JValue))

/-- A JSON object: an ordered association list of string keys. -/
abbrev JObject := List (String × JValue)

/-- Dict lookup (first binding wins; the parser keeps duplicates in order). -/
def jLookup (kvs : JObject) (k : String) : Option JValue :=
  (kvs.find? (fun e => e.1 = k)).map (·.2)

/-- Python truthiness of a JSON-like value (`if x:`). -/
def jTruthy : JValue → Bool
  | .null => false
  | .bool b => b
  | .num n => n != 0
  | .str s => s != ""
  | .arr xs => !xs.isEmpty
  | .obj kvs => !kvs.isEmpty

/-- The opening-brace character (written by code point so that no string
literal in this file holds a raw brace). -/
def jLBrace : Char := Char.ofNat 123

/-- The closing-brace character. -/
def jRBrace : Char := Char.ofNat 125

/-- Skip JSON whitespace. -/
def skipWs : List Char → List Char
  | [] => []
  | c :: rest => if c = ' ' ∨ c = '\t' ∨ c = '\n' ∨ c = '\r' then skipWs rest else c :: rest

/-- Decimal digit test. -/
def isDigitCh (c : Char) : Bool := '0' ≤ c && c ≤ '9'

/-- Split a leading run of digits off a character list. -/
def takeDigits : List Char → List Char × List Char
  | [] => ([], [])
  | c :: rest =>
    if isDigitCh c then
      let (d, r) := takeDigits rest
      (c :: d, r)
    else ([], c :: rest)

/-- Value of a digit run. -/
def digitsToNat (ds : List Char) : Nat :=
  ds.foldl (fun acc c => acc * 10 + (c.toNat - '0'.toNat)) 0

/-- Parse the body of a JSON string, after the opening quote; returns the
decoded string and the input after the closing quote. -/
def parseStringBody : List Char → Option (String × List Char)
  | [] => none
  | '\\' :: c :: rest =>
    let esc : Option Char :=
      if c = '"' then some '"'
      else if c = '\\' then some '\\'
      else if c = '/' then some '/'
      else if c = 'n' then some '\n'
      else if c = 't' then some '\t'
      else if c = 'r' then some '\r'
      else none
    match esc with
    | some e => (parseStringBody rest).map (fun p => (String.mk (e :: p.1.toList), p.2))
    | none => none
  | c :: rest =>
    if c = '"' then some ("", rest)
    else (parseStringBody rest).map (fun p => (String.mk (c :: p.1.toList), p.2))

/-- Parse a JSON integer (floats are outside the modelled fragment). -/
def parseNum (cs : List Char) : Option (Int × List Char) :=
  let (neg, cs1) := match cs with
    | '-' :: rest => (true, rest)
    | _ => (false, cs)
  let (ds, rest) := takeDigits cs1
  if ds = [] then none
  else
    match rest with
    | '.' :: _ => none
    | 'e' :: _ => none
    | 'E' :: _ => none
    | _ =>
      let n : Int := Int.ofNat (digitsToNat ds)
      some (if neg then -n else n, rest)

mutual
/-- Parse one JSON value (fuel-indexed recursive descent). -/
def parseVal : Nat → List Char → Option (JValue × List Char)
  | 0, _ => none
  | fuel + 1, cs =>
    match skipWs cs with
    | 'n' :: 'u' :: 'l' :: 'l' :: rest => some (.null, rest)
    | 't' :: 'r' :: 'u' :: 'e' :: rest => some (.bool true, rest)
    | 'f' :: 'a' :: 'l' :: 's' :: 'e' :: rest => some (.bool false, rest)
    | '"' :: rest => (parseStringBody rest).map (fun p => (.str p.1, p.2))
    | c :: rest =>
      if c = '[' then
        match skipWs rest with
        | ']' :: r2 => some (.arr [], r2)
        | r2 => (parseElems fuel r2).map (fun p => (.arr p.1, p.2))
      else if c = jLBrace then
        let r2 := skipWs rest
        if r2.head? = some jRBrace then some (.obj [], r2.tail)
        else (parseMembers fuel r2).map (fun p => (.obj p.1, p.2))
      else (parseNum (c :: rest)).map (fun p => (JValue.num p.1, p.2))
    | [] => none

/-- Parse the elements of a non-empty JSON array, up to and past `]`. -/
def parseElems : Nat → List Char → Option (List JValue × List Char)
  | 0, _ => none
  | fuel + 1, cs => do
    let (v, rest) ← parseVal fuel cs
    match skipWs rest with
    | ',' :: r2 => (parseElems fuel r2).map (fun p => (v :: p.1, p.2))
    | ']' :: r2 => some ([v], r2)
    | _ => none

/-- Parse the members of a non-empty JSON object, up to and past the
closing brace. -/
def parseMembers : Nat → List Char → Option (List (String × JValue) × List Char)
  | 0, _ => none
  | fuel + 1, cs =>
    match skipWs cs with
    | '"' :: rest => do
      let (k, r1) ← parseStringBody rest
      match skipWs r1 with
      | ':' :: r2 => do
        let (v, r3) ← parseVal fuel r2
        match skipWs r3 with
        | ',' :: r4 => (parseMembers fuel r4).map (fun p => ((k, v) :: p.1, p.2))
        | c :: r4 => if c = jRBrace then some ([(k, v)], r4) else none
        | [] => none
      | _ => none
    | _ => none
end

/-- `json.loads`: parse a complete JSON document (nothing but whitespace may
follow the value); `none` models a raised `json.JSONDecodeError`. -/
def pyJsonLoads (s : String) : Option JValue :=
  match parseVal (s.length + 1) s.toList with
  | some (v, rest) => if skipWs rest = [] then some v else none
  | none => none

mutual
/-- `json.dumps` with its default separators. -/
def renderJson : JValue → String
  | .null => "null"
  | .bool true => "true"
  | .bool false => "false"
  | .num n => toString n
  | .str s => "\"" ++ s ++ "\""
  | .arr xs => "[" ++ renderList xs ++ "]"
  | .obj kvs => "\x7b" ++ renderMembers kvs ++ "\x7d"

/-- Comma-separated rendering of array elements. -/
def renderList : List JValue → String
  | [] => ""
  | [x] => renderJson x
  | x :: y :: rest => renderJson x ++ ", " ++ renderList (y :: rest)

/-- Comma-separated rendering of object members. -/
def renderMembers : List (String × JValue) → String
  | [] => ""
  | [(k, v)] => "\"" ++ k ++ "\": " ++ renderJson v
  | (k, v) :: m :: rest => "\"" ++ k ++ "\": " ++ renderJson v ++ ", " ++ renderMembers (m :: rest)
end

/-! ## Paths, the filesystem, and the observable world -/

/-- A filesystem path, as a list of components. -/
abbrev PathC := List String

/-- Split a character list on `/` (structurally, so terms reduce). -/
def splitSlash : List Char → List (List Char)
  | [] => [[]]
  | c :: rest =>
    let r := splitSlash rest
    if c = '/' then [] :: r
    else
      match r with
      | h :: t => (c :: h) :: t
      | [] => [[c]]

/-- The components of a path string, as `pathlib` normalises them
(empty components and `.` are dropped; `..` is kept). -/
def pathComponents (s : String) : PathC :=
  ((splitSlash s.toList).map String.mk).filter (fun c => c != "" && c != ".")

/-- Whether a path string is absolute. -/
def isAbsPath (s : String) : Bool := s.toList.head? = some '/'

/-- Resolution of a possibly-relative path string against a base directory:
`pathlib`'s joining (`base / p`, and the OS-level resolution of a relative
`Path(p)` against the working directory) keeps an absolute `p` unchanged. -/
def resolveAgainst (base : PathC) (p : String) : PathC :=
  if isAbsPath p then pathComponents p else base ++ pathComponents p

/-- `Path.parent`: drop the last component (the parent of the root is the
root itself, as in `pathlib`). -/
def parentDir (d : PathC) : PathC := d.dropLast

/-- Render a path for interpolation into a message (components joined
with `/`). -/
def renderPath : PathC → String
  | [] => ""
  | [x] => x
  | x :: y :: rest => x ++ "/" ++ renderPath (y :: rest)

/-- The filesystem: an association list from paths to file contents.
Directories are not modelled (no claim concerns them); `mkdir` is a no-op
here. -/
abbrev FileSys := List (PathC × String)

/-- Contents of the file at `p`, if it exists. -/
def fsLookup (fs : FileSys) (p : PathC) : Option String :=
  (fs.find? (fun e => e.1 = p)).map (·.2)

/-- Write `c` to the file at `p` (overwriting, or creating the entry). -/
def fsWrite (fs : FileSys) (p : PathC) (c : String) : FileSys :=
  if fs.any (fun e => e.1 = p) then
    fs.map (fun e => if e.1 = p then (p, c) else e)
  else fs ++ [(p, c)]

/-- Observable events of a run.  The Python code does not log these; they
are ghost observations that make the claims about prompting, tool
invocation and model-call counts statable:
* `modelCall` — one call of the LLM endpoint (`generate`/`generate_stream`);
* `agentPrompt t` — the agent loop's own approval prompt for tool `t`
  (`agent.py`, `Prompt.ask` in `execute` / `_execute_tool`);
* `toolPrompt t` — an approval prompt issued *inside* tool `t`'s `run`
  (`shell.py`, `write_file.py`, `edit.py`);
* `toolRun t` — `ToolRegistry.run` reached tool `t`'s `run` method. -/
inductive Event where
  | modelCall
  | agentPrompt (tool : String)
  | toolPrompt (tool : String)
  | toolRun (tool : String)
  deriving DecidableEq, Repr

/-- The world state threaded through a run: the filesystem, the process
working directory (fixed for the process lifetime), the number of approval
prompts answered so far, and the ghost event log. -/
structure World where
  fs : FileSys
  cwd : PathC
  promptCount : Nat
  events : List Event
  deriving DecidableEq, Repr

/-- Append a ghost event. -/
def logEvent (w : World) (e : Event) : World :=
  { w with events := w.events ++ [e] }

/-- `Prompt.ask(..., choices=["y", "n"], default="n")`: consume the next
answer from the oracle (`true` = the user typed "y") and record which
prompt was issued. -/
def askApproval (ans : Nat → Bool) (w : World) (ev : Event) : Bool × World :=
  (ans w.promptCount,
   { w with promptCount := w.promptCount + 1, events := w.events ++ [ev] })

/-- Number of model calls recorded in the world so far. -/
def modelCalls (w : World) : Nat := w.events.count .modelCall

/-- A Python exception escaping the modelled code. -/
inductive PyExc where
  | keyError (key : String)
  | typeError (msg : String)
  | indexError (msg : String)
  deriving DecidableEq, Repr

/-- `str(e)` as interpolated into error messages (`str` of a `KeyError`
shows the repr of the key). -/
def PyExc.message : PyExc → String
  | .keyError k => "'" ++ k ++ "'"
  | .typeError m => m
  | .indexError m => m

/-- A `{"error": msg}` tool result. -/
def errResult (msg : String) : JValue := .obj [("error", .str msg)]

/-! ## Keyword-argument extraction

`ToolRegistry.run(name, **kwargs)` splats the model-supplied arguments into
each tool's keyword-only parameters.  A missing required argument raises
`TypeError` at the call; the optional `yolo` flag defaults to `False` and is
read for truthiness. -/

/-- Extract a required string argument (a missing binding raises
`TypeError`, as the keyword splat does; a non-string value raises where the
tool first uses it as a path/command — modelled at extraction, which no
claim distinguishes). -/
def getStrArg (kwargs : JObject) (k : String) : Except PyExc String :=
  match jLookup kwargs k with
  | some (.str s) => .ok s
  | some _ => .error (.typeError ("argument " ++ k ++ " is not a string"))
  | none => .error (.typeError ("missing a required keyword-only argument: " ++ k))

/-- The `yolo: bool = False` keyword of the dangerous tools: absent in the
call means `False`; present means Python truthiness of the value. -/
def getYoloArg (kwargs : JObject) : Bool :=
  match jLookup kwargs "yolo" with
  | some v => jTruthy v
  | none => false

/-! ## The tools (src/dune/tools/) -/

/-- The tool names classified dangerous (`agent.py` line 10). -/
def DANGEROUS_TOOLS : List String := ["shell", "write_file", "edit"]

/-- A tool's `run` method: keyword arguments, the prompt-answer oracle, and
the world in; a result value and world out, or an escaping exception. -/
abbrev ToolImpl := JObject → (Nat → Bool) → World → Except PyExc (JValue × World)

/-- Python's `data[:n]` on file contents (characters stand in for bytes;
a negative `n` counts from the end, as a Python slice does). -/
def pySliceTo (s : String) (n : Int) : String :=
  if 0 ≤ n then String.mk (s.toList.take n.toNat)
  else String.mk (s.toList.take (s.toList.length - min s.toList.length (-n).toNat))

/-- `ReadFileTool.run` (src/dune/tools/read_file.py).  The file is looked
up under `WORKSPACE_ROOT = Path(os.getcwd()).parent` — the *parent* of the
working directory — joined with `path`.  `max_bytes` defaults to 10000 and
`None` disables truncation; `decode(errors="replace")` is the identity
here since contents are strings. -/
def ReadFileTool.run : ToolImpl := fun kwargs _ans w =>
  match getStrArg kwargs "path" with
  | .error e => .error e
  | .ok path =>
    let file_path := resolveAgainst (parentDir w.cwd) path
    match fsLookup w.fs file_path with
    | none =>
      .ok (errResult ("File '" ++ path ++ "' does not exist at '" ++ renderPath file_path ++ "'."), w)
    | some data =>
      match jLookup kwargs "max_bytes" with
      | none => .ok (.obj [("contents", .str (pySliceTo data 10000))], w)
      | some .null => .ok (.obj [("contents", .str data)], w)
      | some (.num n) => .ok (.obj [("contents", .str (pySliceTo data n))], w)
      | some _ =>
        .ok (errResult "slice indices must be integers or None or have an __index__ method", w)

/-- `WriteFileTool.run` (src/dune/tools/write_file.py).  The path is
`Path(path)`, i.e. resolved against the working directory itself (the
module's `WORKSPACE_ROOT` is defined but unused).  If the file exists and
`yolo` is false, an overwrite prompt is issued inside the tool; parent
directories are created as needed (a no-op in this flat model). -/
def WriteFileTool.run : ToolImpl := fun kwargs ans w =>
  match getStrArg kwargs "path" with
  | .error e => .error e
  | .ok path =>
    match getStrArg kwargs "contents" with
    | .error e => .error e
    | .ok contents =>
      let yolo := getYoloArg kwargs
      let file_path := resolveAgainst w.cwd path
      let write : World → Except PyExc (JValue × World) := fun w1 =>
        .ok (.obj [("success", .bool true), ("path", .str (renderPath (pathComponents path)))],
             { w1 with fs := fsWrite w1.fs file_path contents })
      if (fsLookup w.fs file_path).isSome && !yolo then
        let (approved, w1) := askApproval ans w (.toolPrompt "write_file")
        if approved then write w1
        else .ok (errResult "User chose not to overwrite the file.", w1)
      else write w

/-- The outcome of `subprocess.run(command, shell=True, check=True,
capture_output=True, text=True)`, supplied by an oracle (shell side
effects are outside this model). -/
inductive ShellOutcome where
  | success (stdout stderr : String)
  | calledProcessError (returncode : Int) (stdout stderr : String)
  | exc (msg : String)
  deriving DecidableEq, Repr

/-- `ShellTool.run` (src/dune/tools/shell.py), parametrised by the
subprocess oracle.  If `yolo` is false (its default — the agent never
forwards its own flag), an approval prompt is issued inside the tool. -/
def ShellTool.run (shellExec : String → ShellOutcome) : ToolImpl := fun kwargs ans w =>
  match getStrArg kwargs "command" with
  | .error e => .error e
  | .ok command =>
    let yolo := getYoloArg kwargs
    let exec : World → Except PyExc (JValue × World) := fun w1 =>
      match shellExec command with
      | .success o e => .ok (.obj [("stdout", .str o), ("stderr", .str e)], w1)
      | .calledProcessError c o e =>
        .ok (.obj [("error", .str ("Command failed with exit code " ++ toString c)),
                   ("stdout", .str o), ("stderr", .str e)], w1)
      | .exc m => .ok (errResult m, w1)
    if !yolo then
      let (approved, w1) := askApproval ans w (.toolPrompt "shell")
      if approved then exec w1
      else .ok (errResult "User rejected the shell command.", w1)
    else exec w

/-- Substring test on character lists: does `sub` occur in `hay`?  (The
empty list occurs in everything, as Python's `"" in s` is `True`.) -/
def listContainsSub (hay sub : List Char) : Bool :=
  if sub.isPrefixOf hay then true
  else
    match hay with
    | [] => false
    | _ :: rest => listContainsSub rest sub

/-- Python `sub in s` on strings (substring test). -/
def strContains (hay sub : String) : Bool := listContainsSub hay.toList sub.toList

/-- `s.replace(search, repl, 1)` on character lists: replace the first
occurrence of `search` (an empty `search` matches at the front, as in
Python); if `search` does not occur, the list is unchanged. -/
def listReplaceFirst (s search repl : List Char) : List Char :=
  if search.isPrefixOf s then repl ++ s.drop search.length
  else
    match s with
    | [] => []
    | c :: rest => c :: listReplaceFirst rest search repl

/-- `s.replace(search, repl, 1)` on strings. -/
def strReplaceFirst (s search repl : String) : String :=
  String.mk (listReplaceFirst s.toList search.toList repl.toList)

/-- `EditTool.run` (src/dune/tools/edit.py).  The path is `Path(path)`
(resolved against the working directory).  A missing file or absent
`search_text` returns an error without touching the file; with `yolo`
false (its default) an approval prompt is issued inside the tool; on
approval only the first occurrence is replaced and written back. -/
def EditTool.run : ToolImpl := fun kwargs ans w =>
  match getStrArg kwargs "path" with
  | .error e => .error e
  | .ok path =>
    match getStrArg kwargs "search_text" with
    | .error e => .error e
    | .ok search_text =>
      match getStrArg kwargs "replace_text" with
      | .error e => .error e
      | .ok replace_text =>
        let yolo := getYoloArg kwargs
        let file_path := resolveAgainst w.cwd path
        match fsLookup w.fs file_path with
        | none => .ok (errResult ("File not found at " ++ path), w)
        | some original_content =>
          if !strContains original_content search_text then
            .ok (errResult "Search text not found in file. Use `read_file` to see the exact content.", w)
          else
            let write : World → Except PyExc (JValue × World) := fun w1 =>
              let new_content := strReplaceFirst original_content search_text replace_text
              .ok (.obj [("success", .bool true), ("path", .str (renderPath (pathComponents path)))],
                   { w1 with fs := fsWrite w1.fs file_path new_content })
            if !yolo then
              let (approved, w1) := askApproval ans w (.toolPrompt "edit")
              if approved then write w1
              else .ok (errResult "User rejected the edit.", w1)
            else write w

/-! ## The tool registry (src/dune/tools/__init__.py) -/

/-- The registry: tool name to implementation, in registration order. -/
abbrev Registry := List (String × ToolImpl)

/-- `ToolRegistry.run(name, **args)`: the keyword splat requires a mapping
(`TypeError` otherwise), `cls._registry[name]` raises `KeyError` for an
unknown name, and otherwise the tool's `run` is invoked (recorded as a
`toolRun` event). -/
def ToolRegistry.run (reg : Registry) (name : String) (args : JValue)
    (ans : Nat → Bool) (w : World) : Except PyExc (JValue × World) :=
  match args with
  | .obj kwargs =>
    match reg.find? (fun e => e.1 = name) with
    | none => .error (.keyError name)
    | some (_, impl) => impl kwargs ans (logEvent w (.toolRun name))
  | _ => .error (.typeError "argument after ** must be a mapping")

/-- The registered tools this model covers, in their registration order
(`cli.py` imports read_file, write_file, shell, …, edit; grep, ls, glob,
read_many_files and web_search are registered too but appear in no claim
and are left out — agent-side statements that quantify over tools are
parametric in the registry). -/
def duneRegistry (shellExec : String → ShellOutcome) : Registry :=
  [("read_file", ReadFileTool.run),
   ("write_file", WriteFileTool.run),
   ("shell", ShellTool.run shellExec),
   ("edit", EditTool.run)]

/-! ## The blocking agent loop (src/dune/agent.py, `Agent.execute`) -/

/-- One entry of the agent's conversation history in blocking (Gemini-shape)
mode, covering exactly the four dict shapes `Agent.execute` appends:
`{"role": "user", "parts": [{"text": …}]}`,
`{"role": "model", "parts": [{"text": …}]}`,
`{"role": "model", "parts": [{"function_call": …}]}` and
`{"role": "function", "parts": [{"functionResponse": …}]}`. -/
inductive GTurn where
  | user (text : String)
  | modelText (text : String)
  | modelFunctionCall (name : String) (args : JValue)
  | functionResponse (name : String) (response : JValue)

/-- The blocking reply of an LLM endpoint, as `Agent.execute` inspects it:
a dict with a `function_call` key, or with a `text` key, or with neither
(`shown` is the dict's printed form, interpolated into the error
message). -/
inductive LLMResponse where
  | functionCall (name : String) (args : JValue)
  | text (s : String)
  | other (shown : String)

/-- The string `Agent.execute` returns when the turn budget is exhausted. -/
def turnLimitMsg : String := "Error: Agent exceeded maximum turns."

/-- The string `Agent.execute` returns on a reply with neither text nor a
tool call. -/
def invalidLLMMsg (shown : String) : String :=
  "Error: Invalid response from LLM: " ++ shown

/-- The `{"error": …}` result `Agent.execute` substitutes for a rejected
dangerous tool call. -/
def rejectedResult (tool_name : String) : JValue :=
  errResult ("Tool call for '" ++ tool_name ++ "' was rejected by the user.")

/-- The approval gate plus dispatch for one requested tool call in
`Agent.execute` (lines 51–79): a dangerous tool in interactive mode first
blocks on the agent-level prompt (for `edit`, after a best-effort diff
preview whose only effect is console output), and a "no" answer substitutes
the rejection result *without* calling `ToolRegistry.run`; otherwise the
registry is invoked directly.  Note the agent does not forward its own
`yolo` flag (or any approval) to the tool: the tool receives only the
model-supplied arguments. -/
def Agent.toolStep (yolo : Bool) (ans : Nat → Bool) (reg : Registry)
    (tool_name : String) (tool_args : JValue) (w : World) :
    Except PyExc (JValue × World) :=
  if DANGEROUS_TOOLS.contains tool_name && !yolo then
    let (approved, w1) := askApproval ans w (.agentPrompt tool_name)
    if approved then ToolRegistry.run reg tool_name tool_args ans w1
    else .ok (rejectedResult tool_name, w1)
  else ToolRegistry.run reg tool_name tool_args ans w

/-- The `for _ in range(max_turns)` loop of `Agent.execute`, as a
fuel-indexed recursion: fuel 0 is the loop falling through to the
turn-limit error.  Each iteration is one model call; a `function_call`
reply appends the model turn, runs `Agent.toolStep`, appends the function
response and continues; a `text` reply appends the model turn and returns
the text; any other reply returns the invalid-response error without
appending.  An escaping exception (`.error`) carries the history as
already appended; its `World` component is the state at the model turn
(Python has no return value there at all). -/
def Agent.executeLoop (gen : List GTurn → LLMResponse) (yolo : Bool)
    (ans : Nat → Bool) (reg : Registry) :
    Nat → List GTurn → World → Except PyExc String × List GTurn × World
  | 0, hist, w => (.ok turnLimitMsg, hist, w)
  | n + 1, hist, w =>
    let w1 := logEvent w .modelCall
    match gen hist with
    | .functionCall tool_name tool_args =>
      let hist1 := hist ++ [.modelFunctionCall tool_name tool_args]
      match Agent.toolStep yolo ans reg tool_name tool_args w1 with
      | .error e => (.error e, hist1, w1)
      | .ok (tool_result, w2) =>
        Agent.executeLoop gen yolo ans reg n
          (hist1 ++ [.functionResponse tool_name tool_result]) w2
    | .text t => (.ok t, hist ++ [.modelText t], w1)
    | .other shown => (.ok (invalidLLMMsg shown), hist, w1)

/-- `Agent.execute(prompt, max_turns=25)`: append the user turn to the
persistent history and run the loop.  The endpoint is the function `gen`
from the current history to a reply (the tool schemas and system prompt the
Python passes are fixed per agent and folded into `gen`). -/
def Agent.execute (gen : List GTurn → LLMResponse) (yolo : Bool)
    (ans : Nat → Bool) (reg : Registry) (prompt : String)
    (hist : List GTurn) (w : World) (max_turns : Nat := 25) :
    Except PyExc String × List GTurn × World :=
  Agent.executeLoop gen yolo ans reg max_turns (hist ++ [.user prompt]) w

/-! ## The Groq blocking endpoint (src/dune/groq_client.py) -/

/-- A tool call in a (non-streamed) Groq chat completion message. -/
structure GroqToolCall where
  id : String
  name : String
  arguments : String

/-- The assistant message of a Groq chat completion: optional content and
the list of requested tool calls (`None` and `[]` behave alike under the
code's truthiness test and are both modelled as `[]`). -/
structure GroqMessage where
  content : String
  tool_calls : List GroqToolCall

/-- `GroqLLMEndpoint.generate`, reply translation (lines 49–61): if the
message has tool calls, only `tool_calls[0]` is decoded and returned as
the `function_call`; all further calls are dropped.  A `json.loads`
failure on those arguments is caught by the method's `except` and becomes
an `{"error": …}` dict — neither text nor a tool call to the agent. -/
def GroqLLMEndpoint.generate (msg : GroqMessage) : LLMResponse :=
  match msg.tool_calls with
  | tc :: _ =>
    match pyJsonLoads tc.arguments with
    | some args => .functionCall tc.name args
    | none => .other "JSONDecodeError from tool call arguments"
  | [] => .text msg.content

/-! ## The streaming agent loop (src/dune/agent.py, `Agent.execute_stream`) -/

/-- One tool-call fragment of a streamed chunk's delta
(`delta.tool_calls[k]`): the stream-local call index, and the optional id,
function name and argument-text fragment it carries (the `function`
object's two fields are flattened in). -/
structure ToolCallDelta where
  index : Nat
  id : Option String
  name : Option String
  arguments : Option String

/-- One streamed chunk's delta (`chunk.choices[0].delta`): optional content
text and the tool-call fragments (`None` and an empty list behave alike
under the code's truthiness tests and are both modelled as `[]`). -/
structure StreamChunk where
  content : Option String
  tool_calls : List ToolCallDelta

/-- One entry of the accumulator list `tool_calls` built during the
stream: the id and name captured when the entry was created, and the
argument text concatenated so far.  (Python stores `None` ids/names as-is
and only ever interpolates or looks them up, which the string `"None"`
reproduces observationally — see `optStr`.) -/
structure AccCall where
  id : String
  name : String
  arguments : String

/-- `f"{x}"` of an optional string (Python renders `None` as `None`). -/
def optStr : Option String → String
  | some s => s
  | none => "None"

/-- `execute_stream` lines 125–130: a fragment whose index is at or past
the end of the accumulator list appends a fresh entry, capturing this
fragment's id and name, with empty argument text.  The append lands at
position `len(tool_calls)` whatever the fragment's index says. -/
def accumGrow (calls : List AccCall) (tc : ToolCallDelta) : List AccCall :=
  if calls.length ≤ tc.index then
    calls ++ [⟨optStr tc.id, optStr tc.name, ""⟩]
  else calls

/-- `execute_stream` line 133: append argument text to the entry at
position `i` (`tool_calls[i]["function"]["arguments"] += a`); a subscript
past the end raises `IndexError`. -/
def accumAppendArg (calls : List AccCall) (i : Nat) (a : String) :
    Except PyExc (List AccCall) :=
  if h : i < calls.length then
    let e := calls.get ⟨i, h⟩
    .ok (calls.set i { e with arguments := e.arguments ++ a })
  else .error (.indexError "list index out of range")

/-- Processing of one tool-call fragment (`execute_stream` lines 123–133):
grow the list if the index is new, then, if the fragment carries non-empty
argument text (an empty string is falsy and skipped, as is an absent
one), append that text at the fragment's index. -/
def accumDelta (calls : List AccCall) (tc : ToolCallDelta) :
    Except PyExc (List AccCall) :=
  match tc.arguments with
  | none => .ok (accumGrow calls tc)
  | some a =>
    if a = "" then .ok (accumGrow calls tc)
    else accumAppendArg (accumGrow calls tc) tc.index a

/-- Fold `accumDelta` over a list of fragments. -/
def accumDeltas (calls : List AccCall) : List ToolCallDelta → Except PyExc (List AccCall)
  | [] => .ok calls
  | tc :: rest =>
    match accumDelta calls tc with
    | .error e => .error e
    | .ok calls1 => accumDeltas calls1 rest

/-- What `execute_stream` yields: streamed content text, an
`{"name": …, "args": …}` tool notification, or a yielded error-message
string.  (Python yields plain strings for both the first and the last
kind; they are split here by provenance so statements can tell them
apart.) -/
inductive YieldItem where
  | text (s : String)
  | toolNote (name : String) (args : JValue)
  | errText (s : String)

/-- One entry of the history in streaming (OpenAI-shape) mode, covering
the three dict shapes `execute_stream` appends:
`{"role": "user", "content": …}`,
`{"role": "assistant", "content": …, "tool_calls": …}` and
`{"role": "tool", "tool_call_id": …, "name": …, "content": …}`. -/
inductive SMsg where
  | user (content : String)
  | assistant (content : String) (tool_calls : List AccCall)
  | tool (tool_call_id : String) (name : String) (content : String)

/-- The per-chunk stream-consumption loop (`execute_stream` lines 113–133):
non-empty content is yielded immediately and appended to the running text
(an empty or absent content is falsy and skipped); then each tool-call
fragment is merged by `accumDelta`.  Returns the yields, the full text and
the assembled calls.  (On an `IndexError` the Python generator raises;
the yields already made are not part of the `Except` error.) -/
def accumChunks : List StreamChunk → List YieldItem → String → List AccCall →
    Except PyExc (List YieldItem × String × List AccCall)
  | [], ys, full, calls => .ok (ys, full, calls)
  | ch :: rest, ys, full, calls =>
    let (ys1, full1) :=
      match ch.content with
      | some s => if s = "" then (ys, full) else (ys ++ [.text s], full ++ s)
      | none => (ys, full)
    match accumDeltas calls ch.tool_calls with
    | .error e => .error e
    | .ok calls1 => accumChunks rest ys1 full1 calls1

/-- Consume a whole stream from the empty accumulator state. -/
def processStream (chunks : List StreamChunk) :
    Except PyExc (List YieldItem × String × List AccCall) :=
  accumChunks chunks [] "" []

/-- The error message for a call whose merged argument text is not valid
JSON (`execute_stream` line 148). -/
def invalidJsonMsg (tool_name argsText : String) : String :=
  "Error: Invalid JSON arguments for tool " ++ tool_name ++ ": " ++ argsText

/-- The message of `_execute_tool`'s `except` clause (line 181):
`f"Error executing tool {tool_name}: {e}"`. -/
def toolExecErrorMsg (tool_name : String) (e : PyExc) : String :=
  "Error executing tool " ++ tool_name ++ ": " ++ e.message

/-- `ToolRegistry.run` under `_execute_tool`'s `try`/`except` (lines
177–181): any exception — unknown tool name, bad argument shape — is
caught and converted to an `{"error": …}` result instead of propagating.
(The caught-exception case returns the world as it was at the call; the
exceptions the model can produce occur before any state change.) -/
def runToolCaught (reg : Registry) (tool_name : String) (tool_args : JValue)
    (ans : Nat → Bool) (w : World) : JValue × World :=
  match ToolRegistry.run reg tool_name tool_args ans w with
  | .ok r => r
  | .error e => (errResult (toolExecErrorMsg tool_name e), w)

/-- `Agent._execute_tool` (lines 170–181): the dangerous-tool approval gate
(skipped when the agent runs in yolo mode — though, as in blocking mode,
the flag is not forwarded to the tool itself), then the guarded registry
dispatch. -/
def Agent.executeTool (yolo : Bool) (ans : Nat → Bool) (reg : Registry)
    (tool_name : String) (tool_args : JValue) (w : World) : JValue × World :=
  if DANGEROUS_TOOLS.contains tool_name && !yolo then
    let (approved, w1) := askApproval ans w (.agentPrompt tool_name)
    if approved then runToolCaught reg tool_name tool_args ans w1
    else (rejectedResult tool_name, w1)
  else runToolCaught reg tool_name tool_args ans w

/-- Handling of one assembled call after the stream ends (`execute_stream`
lines 142–160): parse the merged argument text as one JSON value; on
failure yield the error message and record it as this call's tool message
(`continue` — no dispatch); on success yield the `{"name", "args"}`
notification, dispatch through `Agent._execute_tool`, and record the
JSON-rendered result as the tool message. -/
def dispatchOne (yolo : Bool) (ans : Nat → Bool) (reg : Registry)
    (c : AccCall) (w : World) : List YieldItem × SMsg × World :=
  match pyJsonLoads c.arguments with
  | none =>
    let msg := invalidJsonMsg c.name c.arguments
    ([.errText msg], .tool c.id c.name msg, w)
  | some args =>
    let (res, w1) := Agent.executeTool yolo ans reg c.name args w
    ([.toolNote c.name args], .tool c.id c.name (renderJson res), w1)

/-- The `for tool_call in tool_calls` loop: each assembled call is handled
by `dispatchOne` in order, its tool message collected into `tool_outputs`. -/
def dispatchCalls (yolo : Bool) (ans : Nat → Bool) (reg : Registry) :
    List AccCall → World → List YieldItem × List SMsg × World
  | [], w => ([], [], w)
  | c :: rest, w =>
    let (ys, m, w1) := dispatchOne yolo ans reg c w
    let (ys2, ms, w2) := dispatchCalls yolo ans reg rest w1
    (ys ++ ys2, m :: ms, w2)

/-- The `for _ in range(max_turns)` loop of `Agent.execute_stream`: each
iteration calls `generate_stream` (the oracle `sgen`, a function of the
history — the `_prepare_messages` translation and tool schemas are the
endpoint's fixed concern) and consumes the stream; if any tool calls were
assembled, the assistant turn and one tool message per call are appended
and the loop continues; otherwise the accumulated text is the final
assistant turn and the generator returns.  Exhausting the fuel returns
with *no* further yield and *no* further history append — there is no
turn-limit error in streaming mode. -/
def Agent.executeStreamLoop (sgen : List SMsg → List StreamChunk) (yolo : Bool)
    (ans : Nat → Bool) (reg : Registry) :
    Nat → List SMsg → World → Except PyExc (List YieldItem × List SMsg × World)
  | 0, hist, w => .ok ([], hist, w)
  | n + 1, hist, w =>
    let w1 := logEvent w .modelCall
    match processStream (sgen hist) with
    | .error e => .error e
    | .ok (ys, full, calls) =>
      if calls.isEmpty then
        .ok (ys, hist ++ [.assistant full []], w1)
      else
        let hist1 := hist ++ [.assistant full calls]
        let (ys2, outs, w2) := dispatchCalls yolo ans reg calls w1
        match Agent.executeStreamLoop sgen yolo ans reg n (hist1 ++ outs) w2 with
        | .error e => .error e
        | .ok (ys3, h3, w3) => .ok (ys ++ ys2 ++ ys3, h3, w3)

/-- `Agent.execute_stream(prompt, max_turns=10)`: append the user turn and
run the streaming loop with its default turn budget of 10. -/
def Agent.executeStream (sgen : List SMsg → List StreamChunk) (yolo : Bool)
    (ans : Nat → Bool) (reg : Registry) (prompt : String)
    (hist : List SMsg) (w : World) (max_turns : Nat := 10) :
    Except PyExc (List YieldItem × List SMsg × World) :=
  Agent.executeStreamLoop sgen yolo ans reg max_turns (hist ++ [.user prompt]) w

/-! ## Concrete fixtures for witnesses and counterexamples -/

/-- A prompt oracle that always answers "n". -/
def ansNo : Nat → Bool := fun _ => false

/-- A prompt oracle that always answers "y". -/
def ansYes : Nat → Bool := fun _ => true

/-- A subprocess oracle: every command succeeds with fixed output. -/
def echoExec : String → ShellOutcome := fun _ => .success "hi\n" ""

/-- An initial world: empty filesystem, a three-component working
directory, no prompts answered, no events. -/
def w0 : World := ⟨[], ["home", "user", "proj"], 0, []⟩

/-- A backend that always requests the shell tool. -/
def genShell : List GTurn → LLMResponse :=
  fun _ => .functionCall "shell" (.obj [("command", .str "echo hi")])

/-- A backend that always requests a tool name no tool is registered
under. -/
def genUnknown : List GTurn → LLMResponse :=
  fun _ => .functionCall "frobnicate" (.obj [])

/-- A backend that immediately answers with final text. -/
def genText : List GTurn → LLMResponse := fun _ => .text "hello"

/-- A backend that always requests the shell tool and — exploiting the
keyword splat — passes `yolo: true` itself, so the tool-internal prompt is
skipped and the call succeeds with no world dependence. -/
def genShellYolo : List GTurn → LLMResponse :=
  fun _ => .functionCall "shell" (.obj [("command", .str "true"), ("yolo", .bool true)])

/-- A backend that always requests the edit tool. -/
def genEdit : List GTurn → LLMResponse :=
  fun _ => .functionCall "edit"
    (.obj [("path", .str "a.txt"), ("search_text", .str "b"), ("replace_text", .str "X")])

/-! ## C7 — a first-turn text reply is returned unchanged -/

/-- C7: for every prompt, if the backend's first reply is text `t`,
`Agent.execute` returns `t` unchanged after exactly one model call (the
world gains exactly the one `modelCall` event and nothing else — so no
tool was invoked and no prompt issued), with the text appended to history
as the final model turn. -/
theorem execute_returns_first_text (gen : List GTurn → LLMResponse) (yolo : Bool)
    (ans : Nat → Bool) (reg : Registry) (prompt t : String)
    (hist : List GTurn) (w : World)
    (h : gen (hist ++ [.user prompt]) = .text t) :
    Agent.execute gen yolo ans reg prompt hist w =
      (.ok t, hist ++ [.user prompt, .modelText t], logEvent w .modelCall) := by
  have h25 : (25 : Nat) = 24 + 1 := rfl
  simp only [Agent.execute, h25, Agent.executeLoop, h, List.append_assoc,
    List.singleton_append, List.cons_append, List.nil_append]

/-- Witness for C7 at a concrete backend and world. -/
theorem execute_returns_first_text_wit :
    Agent.execute genText false ansNo (duneRegistry echoExec) "p" [] w0 =
      (.ok "hello", [.user "p", .modelText "hello"], logEvent w0 .modelCall) :=
  execute_returns_first_text genText false ansNo (duneRegistry echoExec) "p" "hello" [] w0 rfl

/-! ## C5 — an unknown tool name: blocking mode vs streaming mode -/

/-- C5 counterexample: with a backend requesting the unregistered tool
name `frobnicate`, the blocking `Agent.execute` call fails as a whole
with the escaped `KeyError` from `ToolRegistry.get` — no tool-result
error is appended to history (the model turn is the last entry) and the
loop does not continue, contradicting the claim for `Agent.execute`. -/
theorem unknown_tool_escapes_blocking_execute :
    (Agent.execute genUnknown false ansNo (duneRegistry echoExec) "p" [] w0).1
        = .error (.keyError "frobnicate") ∧
    (Agent.execute genUnknown false ansNo (duneRegistry echoExec) "p" [] w0).2.1
        = [.user "p", .modelFunctionCall "frobnicate" (.obj [])] :=
  ⟨rfl, rfl⟩

/-- C5 as amended: in the streaming path, `Agent._execute_tool`'s
`try`/`except` converts the unknown-tool `KeyError` into an
`{"error": …}` tool result, and `execute_stream` records it as that
call's tool message (appended to history like any other tool result, so
the loop continues to the next model call; the model can retry). -/
theorem unknown_tool_streaming_becomes_tool_result (reg : Registry) (name : String)
    (kvs : JObject) (yolo : Bool) (ans : Nat → Bool) (w : World) (c : AccCall)
    (hmiss : reg.find? (fun e => e.1 = name) = none)
    (hsafe : DANGEROUS_TOOLS.contains name = false)
    (hname : c.name = name)
    (hparse : pyJsonLoads c.arguments = some (.obj kvs)) :
    Agent.executeTool yolo ans reg name (.obj kvs) w =
      (errResult (toolExecErrorMsg name (.keyError name)), w) ∧
    dispatchOne yolo ans reg c w =
      ([.toolNote name (.obj kvs)],
       .tool c.id name (renderJson (errResult (toolExecErrorMsg name (.keyError name)))),
       w) := by
  have hmem : ¬ name ∈ DANGEROUS_TOOLS := by simpa using hsafe
  have hexec : Agent.executeTool yolo ans reg name (.obj kvs) w =
      (errResult (toolExecErrorMsg name (.keyError name)), w) := by
    simp [Agent.executeTool, hmem, runToolCaught, ToolRegistry.run, hmiss]
  refine ⟨hexec, ?_⟩
  simp [dispatchOne, hparse, hname, hexec]

/-- Witness for the amended C5 at a concrete unknown tool name. -/
theorem unknown_tool_streaming_becomes_tool_result_wit :
    dispatchOne false ansNo (duneRegistry echoExec) ⟨"id1", "frobnicate", "\x7b\x7d"⟩ w0 =
      ([.toolNote "frobnicate" (.obj [])],
       .tool "id1" "frobnicate"
         (renderJson (errResult (toolExecErrorMsg "frobnicate" (.keyError "frobnicate")))),
       w0) :=
  (unknown_tool_streaming_becomes_tool_result (duneRegistry echoExec) "frobnicate" []
    false ansNo w0 ⟨"id1", "frobnicate", "\x7b\x7d"⟩ rfl rfl rfl rfl).2

/-! ## C1 — yolo mode does not actually silence the tool-internal prompts -/

/-- C1 (divergence): with the agent in auto-approve (yolo) mode and the
backend requesting a shell command, the agent-level gate is indeed skipped
(no `agentPrompt` event), but `Agent.execute` calls `ToolRegistry.run`
without forwarding its `yolo` flag; `ShellTool.run`'s own `yolo` keyword
defaults to `False`, so the *tool* issues an approval prompt (`toolPrompt
"shell"`) — and with the answer "n" the call does not execute at all: the
rejection error becomes the tool result.  This contradicts the claim that
in yolo mode no approval prompt is ever issued and every tool call
executes immediately. -/
theorem yolo_mode_shell_tool_still_prompts :
    (Agent.execute genShell true ansNo (duneRegistry echoExec) "run" [] w0 1).2.2.events
        = [.modelCall, .toolRun "shell", .toolPrompt "shell"] ∧
    (Agent.execute genShell true ansNo (duneRegistry echoExec) "run" [] w0 1).2.1
        = [.user "run", .modelFunctionCall "shell" (.obj [("command", .str "echo hi")]),
           .functionResponse "shell" (errResult "User rejected the shell command.")] :=
  ⟨rfl, rfl⟩

/-! ## C2 — a rejected dangerous tool call in the blocking loop -/

/-- C2: in interactive (non-yolo) blocking mode, when the backend requests
a dangerous tool and the agent-level approval prompt is answered "n", the
loop substitutes the `{"error": …}` rejection result for the tool result,
appends it to history, and continues as the next loop iteration (the next
model call) — `ToolRegistry.run` is never reached, so no `toolRun` event
is recorded and the filesystem (in particular any file an `edit` call
targeted) is byte-for-byte unchanged.  The last conjunct states the same
for the streaming path's `Agent._execute_tool`: a "no" answer returns the
rejection result without invoking the registry or touching the
filesystem. -/
theorem rejected_dangerous_call_never_runs_tool (gen : List GTurn → LLMResponse)
    (ans : Nat → Bool) (reg : Registry) (name : String) (args : JValue)
    (hist : List GTurn) (w : World) (n : Nat)
    (hg : gen hist = .functionCall name args)
    (hd : DANGEROUS_TOOLS.contains name = true)
    (hans : ans w.promptCount = false) :
    Agent.executeLoop gen false ans reg (n + 1) hist w =
      Agent.executeLoop gen false ans reg n
        (hist ++ [.modelFunctionCall name args, .functionResponse name (rejectedResult name)])
        { w with promptCount := w.promptCount + 1,
                 events := w.events ++ [.modelCall, .agentPrompt name] } ∧
    ({ w with promptCount := w.promptCount + 1,
              events := w.events ++ [.modelCall, .agentPrompt name] } : World).fs = w.fs ∧
    List.count (Event.toolRun name) (w.events ++ [Event.modelCall, Event.agentPrompt name])
        = List.count (Event.toolRun name) w.events ∧
    Agent.executeTool false ans reg name args w =
      (rejectedResult name,
       { w with promptCount := w.promptCount + 1,
                events := w.events ++ [.agentPrompt name] }) := by
  have hmem : name ∈ DANGEROUS_TOOLS := by simpa using hd
  refine ⟨?_, rfl, by simp, ?_⟩
  · simp [Agent.executeLoop, hg, Agent.toolStep, hmem, askApproval, logEvent, hans,
      List.append_assoc]
  · simp [Agent.executeTool, hmem, askApproval, hans]

/-- Witness for C2: the rejected `edit` call at a concrete world. -/
theorem rejected_dangerous_call_never_runs_tool_wit :
    Agent.executeLoop genEdit false ansNo (duneRegistry echoExec) 1 [] w0 =
      Agent.executeLoop genEdit false ansNo (duneRegistry echoExec) 0
        ([] ++ [.modelFunctionCall "edit"
                  (.obj [("path", .str "a.txt"), ("search_text", .str "b"),
                         ("replace_text", .str "X")]),
                .functionResponse "edit" (rejectedResult "edit")])
        { w0 with promptCount := w0.promptCount + 1,
                  events := w0.events ++ [.modelCall, .agentPrompt "edit"] } :=
  (rejected_dangerous_call_never_runs_tool genEdit ansNo (duneRegistry echoExec) "edit"
    (.obj [("path", .str "a.txt"), ("search_text", .str "b"), ("replace_text", .str "X")])
    [] w0 0 rfl rfl rfl).1

/-! ## C9 — the Groq endpoint forwards only the first tool call -/

/-- C9: `GroqLLMEndpoint.generate` returns only `tool_calls[0]` to the
agent — its result is the same whatever the remaining calls in the reply
are (they are silently discarded), and when the first call's arguments
decode it is exactly that call's `function_call`; and for any
`function_call` reply the blocking loop appends exactly one
`functionResponse` turn (together with the model turn) before the next
model call. -/
theorem groq_keeps_only_first_tool_call (content : String) (tc : GroqToolCall)
    (rest rest' : List GroqToolCall) :
    GroqLLMEndpoint.generate ⟨content, tc :: rest⟩
        = GroqLLMEndpoint.generate ⟨content, tc :: rest'⟩ ∧
    (∀ args, pyJsonLoads tc.arguments = some args →
      GroqLLMEndpoint.generate ⟨content, tc :: rest⟩ = .functionCall tc.name args) ∧
    (∀ (gen : List GTurn → LLMResponse) (yolo : Bool) (ans : Nat → Bool)
       (reg : Registry) (n : Nat) (hist : List GTurn) (w : World)
       (name : String) (args : JValue) (r : JValue) (w2 : World),
      gen hist = .functionCall name args →
      Agent.toolStep yolo ans reg name args (logEvent w .modelCall) = .ok (r, w2) →
      Agent.executeLoop gen yolo ans reg (n + 1) hist w =
        Agent.executeLoop gen yolo ans reg n
          (hist ++ [.modelFunctionCall name args, .functionResponse name r]) w2) := by
  refine ⟨rfl, ?_, ?_⟩
  · intro args h
    simp [GroqLLMEndpoint.generate, h]
  · intro gen yolo ans reg n hist w name args r w2 hg hstep
    simp [Agent.executeLoop, hg, hstep, List.append_assoc]

/-- Witness for C9: a reply carrying two tool calls yields the first
call's `function_call` (independently of the second), and one concrete
loop step appends exactly the model turn and one function response. -/
theorem groq_keeps_only_first_tool_call_wit :
    GroqLLMEndpoint.generate
        ⟨"", [⟨"i1", "read_file", "\x7b\"path\": \"x\"\x7d"⟩, ⟨"i2", "shell", "\x7b\x7d"⟩]⟩
      = .functionCall "read_file" (.obj [("path", .str "x")]) :=
  (groq_keeps_only_first_tool_call "" ⟨"i1", "read_file", "\x7b\"path\": \"x\"\x7d"⟩
    [⟨"i2", "shell", "\x7b\x7d"⟩] []).2.1 (.obj [("path", .str "x")]) rfl

/-! ## C3 — the turn limit in blocking mode -/

/-- Logging a model call raises the model-call count by one. -/
theorem modelCalls_logEvent_modelCall (w : World) :
    modelCalls (logEvent w .modelCall) = modelCalls w + 1 := by
  simp [modelCalls, logEvent]

/-- The turn-limit message differs from every malformed-reply message
(they disagree at character 7: `A` vs `I`). -/
theorem turnLimitMsg_ne_invalidLLMMsg (s : String) : turnLimitMsg ≠ invalidLLMMsg s := by
  intro h
  have hd : turnLimitMsg.data = ("Error: Invalid response from LLM: " ++ s).data :=
    congrArg String.data h
  rw [String.data_append] at hd
  have h7 : turnLimitMsg.data[7]?
      = ("Error: Invalid response from LLM: " : String).data[7]? := by
    rw [hd]
    exact List.getElem?_append_left (by decide)
  exact absurd h7 (by decide)

/-- With a backend that always requests a tool call whose dispatch
succeeds without adding model-call events, the loop burns its whole fuel
— one model call per unit — and ends in the turn-limit error. -/
theorem executeLoop_always_tool_exhausts (gen : List GTurn → LLMResponse) (yolo : Bool)
    (ans : Nat → Bool) (reg : Registry)
    (H : ∀ hist, ∃ name args, gen hist = .functionCall name args ∧
      ∀ w, ∃ r w2, Agent.toolStep yolo ans reg name args w = .ok (r, w2) ∧
        modelCalls w2 = modelCalls w) :
    ∀ (n : Nat) (hist : List GTurn) (w : World),
      (Agent.executeLoop gen yolo ans reg n hist w).1 = .ok turnLimitMsg ∧
      modelCalls (Agent.executeLoop gen yolo ans reg n hist w).2.2 = modelCalls w + n := by
  intro n
  induction n with
  | zero => intro hist w; exact ⟨rfl, by simp [Agent.executeLoop]⟩
  | succ m ih =>
    intro hist w
    obtain ⟨name, args, hg, hstep⟩ := H hist
    obtain ⟨r, w2, hok, hmc⟩ := hstep (logEvent w .modelCall)
    have hunf : Agent.executeLoop gen yolo ans reg (m + 1) hist w =
        Agent.executeLoop gen yolo ans reg m
          (hist ++ [.modelFunctionCall name args] ++ [.functionResponse name r]) w2 := by
      simp [Agent.executeLoop, hg, hok]
    rw [hunf]
    refine ⟨(ih _ w2).1, ?_⟩
    rw [(ih _ w2).2, hmc, modelCalls_logEvent_modelCall w]
    omega

/-- C3 counterexample to the claim as stated: `genUnknown` always replies
with a tool call, yet `Agent.execute` with `max_turns = 2` makes only
*one* model call and ends in the escaped `KeyError` — not the turn-limit
error — because the requested tool does not dispatch.  The claim needs
the proviso that the requested calls dispatch without an escaping
exception. -/
theorem always_tool_call_but_no_turn_limit :
    (Agent.execute genUnknown false ansNo (duneRegistry echoExec) "p" [] w0 2).1
        = .error (.keyError "frobnicate") ∧
    modelCalls (Agent.execute genUnknown false ansNo (duneRegistry echoExec) "p" [] w0 2).2.2
        = 1 :=
  ⟨rfl, rfl⟩

/-- C3 as amended: for every backend that always replies with a tool call
whose dispatch returns normally (no escaping exception; tool-level
`{"error": …}` results included), `Agent.execute` with `max_turns = n`
issues exactly `n` model calls and then returns the turn-limit-exceeded
error — never an `(n+1)`-th call — and that result differs from the
malformed-reply error string whatever the malformed payload printed as. -/
theorem execute_turn_limit_exact (gen : List GTurn → LLMResponse) (yolo : Bool)
    (ans : Nat → Bool) (reg : Registry)
    (H : ∀ hist, ∃ name args, gen hist = .functionCall name args ∧
      ∀ w, ∃ r w2, Agent.toolStep yolo ans reg name args w = .ok (r, w2) ∧
        modelCalls w2 = modelCalls w)
    (n : Nat) (prompt : String) (hist : List GTurn) (w : World) :
    (Agent.execute gen yolo ans reg prompt hist w n).1 = .ok turnLimitMsg ∧
    modelCalls (Agent.execute gen yolo ans reg prompt hist w n).2.2 = modelCalls w + n ∧
    ∀ s, turnLimitMsg ≠ invalidLLMMsg s := by
  refine ⟨(executeLoop_always_tool_exhausts gen yolo ans reg H n _ w).1,
    (executeLoop_always_tool_exhausts gen yolo ans reg H n _ w).2,
    turnLimitMsg_ne_invalidLLMMsg⟩

/-- Witness for C3: a backend always requesting shell (with a
model-supplied `yolo: true`, so the dispatch succeeds deterministically),
`max_turns = 2`: turn-limit error after exactly two model calls. -/
theorem execute_turn_limit_exact_wit :
    (Agent.execute genShellYolo true ansNo (duneRegistry echoExec) "p" [] w0 2).1
        = .ok turnLimitMsg ∧
    modelCalls (Agent.execute genShellYolo true ansNo (duneRegistry echoExec) "p" [] w0 2).2.2
        = modelCalls w0 + 2 := by
  have H : ∀ hist, ∃ name args, genShellYolo hist = .functionCall name args ∧
      ∀ w, ∃ r w2, Agent.toolStep true ansNo (duneRegistry echoExec) name args w = .ok (r, w2) ∧
        modelCalls w2 = modelCalls w := by
    intro hist
    refine ⟨"shell", .obj [("command", .str "true"), ("yolo", .bool true)], rfl, ?_⟩
    intro w
    refine ⟨.obj [("stdout", .str "hi\n"), ("stderr", .str "")],
      logEvent w (.toolRun "shell"), rfl, ?_⟩
    simp [modelCalls, logEvent]
  have h := execute_turn_limit_exact genShellYolo true ansNo (duneRegistry echoExec) H
    2 "p" [] w0
  exact ⟨h.1, h.2.1⟩

/-! ## C8 — read_file and write_file/edit resolve the same path differently -/

/-- Overwriting the entry for `p` changes no other key's lookup
(map branch of `fsWrite`). -/
theorem find?_key_map_overwrite (fs : FileSys) (p q : PathC) (c : String) (h : q ≠ p) :
    List.find? (fun e => decide (e.1 = q)) (fs.map (fun e => if e.1 = p then (p, c) else e))
      = List.find? (fun e => decide (e.1 = q)) fs := by
  have hpq : decide (p = q) = false := decide_eq_false (fun hpq => h hpq.symm)
  induction fs with
  | nil => rfl
  | cons e rest ih =>
    rw [List.map_cons]
    by_cases hep : e.1 = p
    · have h2 : decide (e.1 = q) = false := by rw [hep]; exact hpq
      rw [if_pos hep]
      simp only [List.find?_cons, hpq, h2]
      exact ih
    · rw [if_neg hep]
      by_cases heq : e.1 = q
      · simp only [List.find?_cons, decide_eq_true heq]
      · simp only [List.find?_cons, decide_eq_false heq]
        exact ih

/-- Writing a file leaves every other path's contents unchanged. -/
theorem fsLookup_fsWrite_ne (fs : FileSys) (p q : PathC) (c : String) (h : q ≠ p) :
    fsLookup (fsWrite fs p c) q = fsLookup fs q := by
  have hpq : decide (p = q) = false := decide_eq_false (fun hpq => h hpq.symm)
  unfold fsWrite
  split
  · unfold fsLookup
    rw [find?_key_map_overwrite fs p q c h]
  · unfold fsLookup
    rw [List.find?_append]
    have h1 : List.find? (fun e => decide (e.1 = q)) [(p, c)] = none := by
      simp only [List.find?_cons, hpq]
      rfl
    rw [h1, Option.or_none]

/-- Evaluation of `ReadFileTool.run` on a bare `path` argument: the file
is looked up at `WORKSPACE_ROOT / path` with `WORKSPACE_ROOT` the parent
of the working directory. -/
theorem readFile_run_eq (p : String) (ans : Nat → Bool) (w : World) :
    ReadFileTool.run [("path", .str p)] ans w =
      (match fsLookup w.fs (resolveAgainst (parentDir w.cwd) p) with
       | none => .ok (errResult ("File '" ++ p ++ "' does not exist at '"
                   ++ renderPath (resolveAgainst (parentDir w.cwd) p) ++ "'."), w)
       | some data => .ok (.obj [("contents", .str (pySliceTo data 10000))], w)) := rfl

/-- Evaluation of `WriteFileTool.run` with a truthy `yolo` argument: the
file at `cwd / path` is written unconditionally. -/
theorem writeYolo_run_eq (p c : String) (ans : Nat → Bool) (w : World) :
    WriteFileTool.run [("path", .str p), ("contents", .str c), ("yolo", .bool true)] ans w
      = .ok (.obj [("success", .bool true), ("path", .str (renderPath (pathComponents p)))],
             { w with fs := fsWrite w.fs (resolveAgainst w.cwd p) c }) := by
  have hy : getYoloArg [("path", .str p), ("contents", .str c), ("yolo", .bool true)] = true := rfl
  simp [WriteFileTool.run, getStrArg, jLookup, hy]

/-- C8: for every relative path `p` (and any working directory that is not
the filesystem root), `read_file` resolves `p` under the *parent* of the
working directory while `write_file` (and `edit`) resolve it under the
working directory itself — different files; consequently a write to `p`
leaves the path `read_file` consults untouched, and reading `p` after
writing `p` returns exactly what it returned before the write, not the
written contents. -/
theorem read_write_resolve_differently (p c : String) (ans : Nat → Bool) (w : World)
    (hrel : isAbsPath p = false) (hcwd : w.cwd ≠ []) :
    resolveAgainst (parentDir w.cwd) p ≠ resolveAgainst w.cwd p ∧
    (∀ r w2,
      WriteFileTool.run [("path", .str p), ("contents", .str c), ("yolo", .bool true)] ans w
          = .ok (r, w2) →
      fsLookup w2.fs (resolveAgainst (parentDir w2.cwd) p)
          = fsLookup w.fs (resolveAgainst (parentDir w.cwd) p) ∧
      (ReadFileTool.run [("path", .str p)] ans w2).map Prod.fst
          = (ReadFileTool.run [("path", .str p)] ans w).map Prod.fst) := by
  have hne : resolveAgainst (parentDir w.cwd) p ≠ resolveAgainst w.cwd p := by
    intro heq
    have hlen := congrArg List.length heq
    simp only [resolveAgainst, hrel, Bool.false_eq_true, if_false, List.length_append,
      parentDir, List.length_dropLast] at hlen
    have h0 : 0 < w.cwd.length := List.length_pos.2 hcwd
    omega
  refine ⟨hne, ?_⟩
  intro r w2 hw
  rw [writeYolo_run_eq] at hw
  have hw2 : w2 = { w with fs := fsWrite w.fs (resolveAgainst w.cwd p) c } :=
    (congrArg Prod.snd (Except.ok.inj hw)).symm
  subst hw2
  have hcwd2 : ({ w with fs := fsWrite w.fs (resolveAgainst w.cwd p) c } : World).cwd
      = w.cwd := rfl
  have hl : fsLookup (fsWrite w.fs (resolveAgainst w.cwd p) c)
        (resolveAgainst (parentDir w.cwd) p)
      = fsLookup w.fs (resolveAgainst (parentDir w.cwd) p) :=
    fsLookup_fsWrite_ne _ _ _ _ hne
  refine ⟨hl, ?_⟩
  rw [readFile_run_eq, readFile_run_eq]
  simp only [hcwd2]
  rw [hl]
  cases fsLookup w.fs (resolveAgainst (parentDir w.cwd) p) <;> rfl

/-- Witness for C8: writing `notes.txt` at a concrete world and then
reading `notes.txt` gives exactly the pre-write read result (here: a
does-not-exist error naming the parent-resolved path). -/
theorem read_write_resolve_differently_wit :
    resolveAgainst (parentDir w0.cwd) "notes.txt" ≠ resolveAgainst w0.cwd "notes.txt" ∧
    (ReadFileTool.run [("path", .str "notes.txt")] ansNo
        { w0 with fs := fsWrite w0.fs (resolveAgainst w0.cwd "notes.txt") "written" }).map
        Prod.fst
      = (ReadFileTool.run [("path", .str "notes.txt")] ansNo w0).map Prod.fst := by
  have h := read_write_resolve_differently "notes.txt" "written" ansNo w0 rfl (by decide)
  exact ⟨h.1, (h.2 _ _ (writeYolo_run_eq "notes.txt" "written" ansNo w0)).2⟩

/-! ## C6 — the edit tool: errors leave the file unchanged; success replaces
only the first occurrence -/

/-- Characterisation of Python's `s.replace(search, repl, 1)`: when
`search` occurs, the input splits as `pre ++ search ++ suf` around the
*first* occurrence (no occurrence starts before `pre` ends) and the result
is `pre ++ repl ++ suf`. -/
theorem listReplaceFirst_spec (search repl : List Char) :
    ∀ s : List Char, listContainsSub s search = true →
    ∃ pre suf, s = pre ++ search ++ suf ∧
      listReplaceFirst s search repl = pre ++ repl ++ suf ∧
      ∀ i < pre.length, search.isPrefixOf (s.drop i) = false := by
  intro s
  induction s with
  | nil =>
    intro h
    have hp : search.isPrefixOf ([] : List Char) = true := by
      unfold listContainsSub at h
      by_cases hp : search.isPrefixOf ([] : List Char) = true
      · exact hp
      · rw [if_neg hp] at h
        exact absurd h (by simp)
    obtain ⟨t, ht⟩ := List.isPrefixOf_iff_prefix.1 hp
    have hsearch : search = [] := by
      cases search with
      | nil => rfl
      | cons a as => exact absurd ht (by simp)
    refine ⟨[], [], by simp [hsearch], ?_, by simp⟩
    unfold listReplaceFirst
    rw [if_pos hp]
    simp [hsearch]
  | cons c rest ih =>
    intro h
    by_cases hp : search.isPrefixOf (c :: rest) = true
    · obtain ⟨t, ht⟩ := List.isPrefixOf_iff_prefix.1 hp
      refine ⟨[], t, by simp [← ht], ?_, by simp⟩
      unfold listReplaceFirst
      rw [if_pos hp]
      have hdrop : (c :: rest).drop search.length = t := by
        rw [← ht]
        exact List.drop_left search t
      simp [hdrop]
    · have h' : listContainsSub rest search = true := by
        unfold listContainsSub at h
        rw [if_neg hp] at h
        exact h
      obtain ⟨pre, suf, hs, hr, hfirst⟩ := ih h'
      refine ⟨c :: pre, suf, by simp [hs], ?_, ?_⟩
      · unfold listReplaceFirst
        rw [if_neg hp]
        simp [hr]
      · intro i hi
        cases i with
        | zero =>
          simpa using Bool.eq_false_iff.2 (fun hc => hp hc)
        | succ j =>
          have hj := hfirst j (by simpa using hi)
          simpa [List.drop_succ_cons] using hj

/-- Evaluation of `EditTool.run` on its full keyword set, stuck only on
the file lookup: the structure of `edit.py`'s `run` from the model's side. -/
theorem edit_run_eq (p s r : String) (yolo : Bool) (ans : Nat → Bool) (w : World) :
    EditTool.run [("path", .str p), ("search_text", .str s), ("replace_text", .str r),
        ("yolo", .bool yolo)] ans w
      = (match fsLookup w.fs (resolveAgainst w.cwd p) with
         | none => .ok (errResult ("File not found at " ++ p), w)
         | some original_content =>
           if !strContains original_content s then
             .ok (errResult "Search text not found in file. Use `read_file` to see the exact content.", w)
           else
             let write : World → Except PyExc (JValue × World) := fun w1 =>
               .ok (.obj [("success", .bool true), ("path", .str (renderPath (pathComponents p)))],
                    { w1 with
                      fs := fsWrite w1.fs (resolveAgainst w.cwd p) (strReplaceFirst original_content s r) })
             if !yolo then
               let pr := askApproval ans w (.toolPrompt "edit")
               if pr.1 then write pr.2
               else .ok (errResult "User rejected the edit.", pr.2)
             else write w) := rfl

/-- C6: an edit whose target file is missing, or whose `search_text` does
not occur in the file's contents, returns an `{"error": …}` result with
the world — in particular the file's on-disk contents — unchanged (the
returned world is `w` itself); a rejected interactive edit likewise leaves
the filesystem untouched; and an approved edit replaces exactly the first
occurrence of `search_text` (the content splits around the earliest
occurrence, and the file is rewritten with only that occurrence
replaced). -/
theorem edit_errors_unchanged_success_first_occurrence (p s r : String) (yolo : Bool)
    (ans : Nat → Bool) (w : World) :
    (fsLookup w.fs (resolveAgainst w.cwd p) = none →
      EditTool.run [("path", .str p), ("search_text", .str s), ("replace_text", .str r),
          ("yolo", .bool yolo)] ans w
        = .ok (errResult ("File not found at " ++ p), w)) ∧
    (∀ content, fsLookup w.fs (resolveAgainst w.cwd p) = some content →
      strContains content s = false →
      EditTool.run [("path", .str p), ("search_text", .str s), ("replace_text", .str r),
          ("yolo", .bool yolo)] ans w
        = .ok (errResult "Search text not found in file. Use `read_file` to see the exact content.", w)) ∧
    (∀ content, fsLookup w.fs (resolveAgainst w.cwd p) = some content →
      strContains content s = true → yolo = false → ans w.promptCount = false →
      EditTool.run [("path", .str p), ("search_text", .str s), ("replace_text", .str r),
          ("yolo", .bool yolo)] ans w
        = .ok (errResult "User rejected the edit.",
               { w with promptCount := w.promptCount + 1,
                        events := w.events ++ [.toolPrompt "edit"] })) ∧
    (∀ content, fsLookup w.fs (resolveAgainst w.cwd p) = some content →
      strContains content s = true → yolo = true →
      EditTool.run [("path", .str p), ("search_text", .str s), ("replace_text", .str r),
          ("yolo", .bool yolo)] ans w
        = .ok (.obj [("success", .bool true), ("path", .str (renderPath (pathComponents p)))],
               { w with fs := fsWrite w.fs (resolveAgainst w.cwd p) (strReplaceFirst content s r) }) ∧
      ∃ pre suf, content.toList = pre ++ s.toList ++ suf ∧
        (strReplaceFirst content s r).toList = pre ++ r.toList ++ suf ∧
        ∀ i < pre.length, s.toList.isPrefixOf (content.toList.drop i) = false) := by
  refine ⟨?_, ?_, ?_, ?_⟩
  · intro hnone
    rw [edit_run_eq, hnone]
  · intro content hsome hmiss
    rw [edit_run_eq, hsome]
    simp [hmiss]
  · intro content hsome hhit hyolo hans
    rw [edit_run_eq, hsome]
    subst hyolo
    simp [hhit, askApproval, hans]
  · intro content hsome hhit hyolo
    subst hyolo
    constructor
    · rw [edit_run_eq, hsome]
      simp [hhit]
    · exact listReplaceFirst_spec s.toList r.toList content.toList hhit

/-- A world with one file, `a.txt` under the working directory, holding
`abcabc`. -/
def wEdit : World :=
  ⟨[(["home", "user", "proj", "a.txt"], "abcabc")], ["home", "user", "proj"], 0, []⟩

/-- Witness for C6: on `abcabc`, replacing `b` by `X` (approved via the
`yolo` keyword) rewrites the file to `aXcabc` — only the first of the two
occurrences — while an absent search text returns the error with the
world unchanged. -/
theorem edit_errors_unchanged_success_first_occurrence_wit :
    EditTool.run [("path", .str "a.txt"), ("search_text", .str "b"),
        ("replace_text", .str "X"), ("yolo", .bool true)] ansNo wEdit
      = .ok (.obj [("success", .bool true), ("path", .str "a.txt")],
             { wEdit with
               fs := fsWrite wEdit.fs (resolveAgainst wEdit.cwd "a.txt")
                 (strReplaceFirst "abcabc" "b" "X") }) ∧
    EditTool.run [("path", .str "a.txt"), ("search_text", .str "zz"),
        ("replace_text", .str "X"), ("yolo", .bool true)] ansNo wEdit
      = .ok (errResult "Search text not found in file. Use `read_file` to see the exact content.",
             wEdit) :=
  ⟨((edit_errors_unchanged_success_first_occurrence "a.txt" "b" "X" true ansNo
      wEdit).2.2.2 "abcabc" rfl rfl rfl).1,
   (edit_errors_unchanged_success_first_occurrence "a.txt" "zz" "X" true ansNo
      wEdit).2.1 "abcabc" rfl rfl⟩

/-! ## C10 — the streaming loop's turn budget is 10 and exhaustion is silent -/

/-- With a stream backend that always produces at least one assembled tool
call (whose dispatch adds no model-call events), the streaming loop runs
for its whole fuel, one model call per unit, and returns normally. -/
theorem executeStreamLoop_always_tool (sgen : List SMsg → List StreamChunk) (yolo : Bool)
    (ans : Nat → Bool) (reg : Registry)
    (H : ∀ hist, ∃ ys full calls, processStream (sgen hist) = .ok (ys, full, calls) ∧
      calls ≠ [] ∧
      ∀ w, modelCalls (dispatchCalls yolo ans reg calls w).2.2 = modelCalls w) :
    ∀ (n : Nat) (hist : List SMsg) (w : World), ∃ ys h2 w2,
      Agent.executeStreamLoop sgen yolo ans reg n hist w = .ok (ys, h2, w2) ∧
      modelCalls w2 = modelCalls w + n := by
  intro n
  induction n with
  | zero => intro hist w; exact ⟨[], hist, w, rfl, by simp⟩
  | succ m ih =>
    intro hist w
    obtain ⟨ys, full, calls, hps, hne, hmc⟩ := H hist
    have hie : calls.isEmpty = false := by
      cases calls with
      | nil => exact absurd rfl hne
      | cons a l => rfl
    obtain ⟨ys3, h3, w3, hrec, hmc3⟩ := ih
      (hist ++ [.assistant full calls]
        ++ (dispatchCalls yolo ans reg calls (logEvent w .modelCall)).2.1)
      (dispatchCalls yolo ans reg calls (logEvent w .modelCall)).2.2
    refine ⟨ys ++ (dispatchCalls yolo ans reg calls (logEvent w .modelCall)).1 ++ ys3,
      h3, w3, ?_, ?_⟩
    · simp only [Agent.executeStreamLoop, hps, hie, Bool.false_eq_true, if_false, hrec]
    · rw [hmc3, hmc (logEvent w .modelCall), modelCalls_logEvent_modelCall]
      omega

/-- C10: `execute_stream` defaults to `max_turns = 10` (not the blocking
mode's 25), and exhausting the budget is silent — the fuel-0 step returns
with *no* yield and *no* history append, so no turn-limit error reaches
the caller or the history; with a backend that always streams tool calls,
the default run makes exactly 10 model calls and then just stops. -/
theorem execute_stream_limit_10_and_silent_exhaustion (sgen : List SMsg → List StreamChunk)
    (yolo : Bool) (ans : Nat → Bool) (reg : Registry) :
    (∀ prompt hist w, Agent.executeStream sgen yolo ans reg prompt hist w
        = Agent.executeStreamLoop sgen yolo ans reg 10 (hist ++ [.user prompt]) w) ∧
    (∀ hist w, Agent.executeStreamLoop sgen yolo ans reg 0 hist w = .ok ([], hist, w)) ∧
    ((∀ hist, ∃ ys full calls, processStream (sgen hist) = .ok (ys, full, calls) ∧
        calls ≠ [] ∧
        ∀ w, modelCalls (dispatchCalls yolo ans reg calls w).2.2 = modelCalls w) →
      ∀ prompt hist w, ∃ ys h2 w2,
        Agent.executeStream sgen yolo ans reg prompt hist w = .ok (ys, h2, w2) ∧
        modelCalls w2 = modelCalls w + 10) := by
  refine ⟨fun _ _ _ => rfl, fun _ _ => rfl, ?_⟩
  intro H prompt hist w
  exact executeStreamLoop_always_tool sgen yolo ans reg H 10 (hist ++ [.user prompt]) w

/-- A stream backend that always delivers one chunk carrying one complete
shell tool call (with a model-supplied `yolo: true`, so its dispatch is
world-independent). -/
def sgenShell : List SMsg → List StreamChunk :=
  fun _ => [⟨none, [⟨0, some "c1", some "shell",
    some "\x7b\"command\": \"true\", \"yolo\": true\x7d"⟩]⟩]

/-- Witness for C10: the always-tool-call stream backend under the default
budget makes exactly 10 model calls and the generator returns normally. -/
theorem execute_stream_limit_10_and_silent_exhaustion_wit :
    ∃ ys h2 w2,
      Agent.executeStream sgenShell true ansNo (duneRegistry echoExec) "p" [] w0
        = .ok (ys, h2, w2) ∧
      modelCalls w2 = modelCalls w0 + 10 := by
  have hone : ∀ w : World,
      dispatchCalls true ansNo (duneRegistry echoExec)
        [⟨"c1", "shell", "\x7b\"command\": \"true\", \"yolo\": true\x7d"⟩] w
      = ([.toolNote "shell" (.obj [("command", .str "true"), ("yolo", .bool true)])],
         [.tool "c1" "shell" (renderJson (.obj [("stdout", .str "hi\n"), ("stderr", .str "")]))],
         logEvent w (.toolRun "shell")) := fun w => rfl
  have H : ∀ hist, ∃ ys full calls,
      processStream (sgenShell hist) = .ok (ys, full, calls) ∧ calls ≠ [] ∧
      ∀ w, modelCalls (dispatchCalls true ansNo (duneRegistry echoExec) calls w).2.2
        = modelCalls w := by
    intro hist
    refine ⟨[], "", [⟨"c1", "shell", "\x7b\"command\": \"true\", \"yolo\": true\x7d"⟩],
      rfl, by simp, ?_⟩
    intro w
    rw [hone w]
    simp [modelCalls, logEvent]
  exact (execute_stream_limit_10_and_silent_exhaustion sgenShell true ansNo
    (duneRegistry echoExec)).2.2 H "p" [] w0

/-! ## C4 — streaming argument assembly and per-call error isolation -/

/-- Concatenation of a list of strings in order. -/
def strJoin : List String → String
  | [] => ""
  | s :: rest => s ++ strJoin rest

/-- All tool-call fragments of a stream, in arrival order (chunks in
order, and each chunk's fragments in order). -/
def allDeltas (chunks : List StreamChunk) : List ToolCallDelta :=
  (chunks.map (fun ch => ch.tool_calls)).flatten

/-- The argument-text fragments labelled with call index `i`, in arrival
order. -/
def fragsOf (ds : List ToolCallDelta) (i : Nat) : List String :=
  ds.filterMap (fun tc => if tc.index = i then tc.arguments else none)

/-- The argument-text fragments for call index `i` across a whole
stream. -/
def argFragments (chunks : List StreamChunk) (i : Nat) : List String :=
  fragsOf (allDeltas chunks) i

/-- The argument text accumulated for call index `i` (empty when no such
entry exists). -/
def argsAt (calls : List AccCall) (i : Nat) : String :=
  match calls[i]? with
  | some c => c.arguments
  | none => ""

/-- Appending a fresh blank-argument entry changes no index's accumulated
argument text. -/
theorem argsAt_append_blank (calls : List AccCall) (x y : String) (i : Nat) :
    argsAt (calls ++ [⟨x, y, ""⟩]) i = argsAt calls i := by
  unfold argsAt
  rcases lt_trichotomy i calls.length with h | h | h
  · rw [List.getElem?_append_left h]
  · subst h
    rw [List.getElem?_append_right (le_refl _)]
    simp [List.getElem?_len_le (le_refl calls.length)]
  · rw [List.getElem?_append_right (by omega)]
    have h1 : calls[i]? = none := List.getElem?_len_le (by omega)
    have h2 : ([(⟨x, y, ""⟩ : AccCall)])[i - calls.length]? = none :=
      List.getElem?_len_le (by simp; omega)
    rw [h1, h2]

/-- `argsAt` after a positional update. -/
theorem argsAt_set (calls : List AccCall) (j : Nat) (e : AccCall) (i : Nat)
    (hj : j < calls.length) :
    argsAt (calls.set j e) i = if i = j then e.arguments else argsAt calls i := by
  unfold argsAt
  by_cases h : i = j
  · subst h
    rw [List.getElem?_set_self hj, if_pos rfl]
  · rw [List.getElem?_set_ne (fun hji => h hji.symm), if_neg h]

/-- Growing the accumulator adds only a blank entry: no argument text
changes. -/
theorem argsAt_accumGrow (calls : List AccCall) (tc : ToolCallDelta) (i : Nat) :
    argsAt (accumGrow calls tc) i = argsAt calls i := by
  unfold accumGrow
  split
  · exact argsAt_append_blank calls _ _ i
  · rfl

/-- A successful argument-append adds `a` to index `j`'s text and nothing
else. -/
theorem accumAppendArg_argsAt (calls calls2 : List AccCall) (j : Nat) (a : String)
    (h : accumAppendArg calls j a = .ok calls2) (i : Nat) :
    argsAt calls2 i = argsAt calls i ++ (if j = i then a else "") := by
  unfold accumAppendArg at h
  split at h
  case isTrue hj =>
    have h2 := (Except.ok.inj h).symm
    subst h2
    have hget : (calls.get ⟨j, hj⟩).arguments = argsAt calls j := by
      unfold argsAt
      rw [List.getElem?_eq_getElem hj, List.get_eq_getElem]
    by_cases hi : j = i
    · subst hi
      rw [argsAt_set _ _ _ _ hj, if_pos rfl, if_pos rfl]
      show _ ++ a = _ ++ a
      rw [hget]
    · rw [argsAt_set _ _ _ _ hj, if_neg (fun hh => hi hh.symm), if_neg hi,
        String.append_empty]
  case isFalse => exact absurd h (by simp)

/-- One fragment's effect on the accumulated argument texts: index
`tc.index` gains exactly this fragment's text (nothing when the fragment
carries none), every other index is untouched. -/
theorem accumDelta_argsAt (calls calls2 : List AccCall) (tc : ToolCallDelta)
    (h : accumDelta calls tc = .ok calls2) (i : Nat) :
    argsAt calls2 i
      = argsAt calls i ++ (if tc.index = i then tc.arguments.getD "" else "") := by
  unfold accumDelta at h
  cases htc : tc.arguments with
  | none =>
    rw [htc] at h
    have h' : Except.ok (accumGrow calls tc) = Except.ok calls2 := h
    have h2 := (Except.ok.inj h').symm
    subst h2
    rw [argsAt_accumGrow]
    have hz : (if tc.index = i then (none : Option String).getD "" else "") = "" := by
      split <;> rfl
    rw [hz, String.append_empty]
  | some a =>
    rw [htc] at h
    have h' : (if a = "" then Except.ok (accumGrow calls tc)
        else accumAppendArg (accumGrow calls tc) tc.index a) = Except.ok calls2 := h
    by_cases ha : a = ""
    · rw [if_pos ha] at h'
      have h2 := (Except.ok.inj h').symm
      subst h2
      rw [argsAt_accumGrow]
      have hz : (if tc.index = i then (some a).getD "" else "") = "" := by
        split
        · exact ha
        · rfl
      rw [hz, String.append_empty]
    · rw [if_neg ha] at h'
      rw [accumAppendArg_argsAt _ _ _ _ h' i, argsAt_accumGrow]
      congr 1

/-- Over a whole fragment list: each index's accumulated argument text is
its initial text followed by the concatenation, in arrival order, of the
fragments labelled with that index. -/
theorem accumDeltas_argsAt : ∀ (ds : List ToolCallDelta) (calls calls' : List AccCall),
    accumDeltas calls ds = .ok calls' →
    ∀ i, argsAt calls' i = argsAt calls i ++ strJoin (fragsOf ds i) := by
  intro ds
  induction ds with
  | nil =>
    intro calls calls' h i
    have h2 : calls = calls' := Except.ok.inj h
    rw [← h2]
    show argsAt calls i = argsAt calls i ++ ""
    rw [String.append_empty]
  | cons tc rest ih =>
    intro calls calls' h i
    unfold accumDeltas at h
    cases hstep : accumDelta calls tc with
    | error e => rw [hstep] at h; exact absurd h (by simp)
    | ok calls2 =>
      rw [hstep] at h
      rw [ih calls2 calls' h i, accumDelta_argsAt calls calls2 tc hstep i,
        String.append_assoc]
      congr 1
      unfold fragsOf
      rw [List.filterMap_cons]
      cases hfc : (if tc.index = i then tc.arguments else none) with
      | none =>
        have hcontrib : (if tc.index = i then tc.arguments.getD "" else "") = "" := by
          by_cases hti : tc.index = i
          · rw [if_pos hti] at hfc
            rw [if_pos hti, hfc]
            rfl
          · rw [if_neg hti]
        rw [hcontrib, String.empty_append]
      | some a =>
        have hti : tc.index = i := by
          by_cases hti : tc.index = i
          · exact hti
          · rw [if_neg hti] at hfc
            exact absurd hfc (by simp)
        rw [if_pos hti] at hfc ⊢
        rw [hfc]
        rfl

/-- Fragment processing composes over list append. -/
theorem accumDeltas_append : ∀ (l1 l2 : List ToolCallDelta) (calls : List AccCall),
    accumDeltas calls (l1 ++ l2) =
      (match accumDeltas calls l1 with
       | .error e => .error e
       | .ok c1 => accumDeltas c1 l2) := by
  intro l1
  induction l1 with
  | nil => intro l2 calls; rfl
  | cons tc rest ih =>
    intro l2 calls
    cases hstep : accumDelta calls tc with
    | error e => simp [accumDeltas, List.cons_append, hstep]
    | ok calls2 =>
      simp only [List.cons_append, accumDeltas, hstep]
      exact ih l2 calls2

/-- The calls assembled by the chunk loop are exactly the fold of
`accumDelta` over all fragments in arrival order (the interleaved content
handling never touches the accumulator). -/
theorem accumChunks_calls : ∀ (chunks : List StreamChunk) (ys : List YieldItem)
    (full : String) (calls : List AccCall) (r : List YieldItem × String × List AccCall),
    accumChunks chunks ys full calls = .ok r →
    accumDeltas calls (allDeltas chunks) = .ok r.2.2 := by
  intro chunks
  induction chunks with
  | nil =>
    intro ys full calls r h
    have h2 := (Except.ok.inj h).symm
    subst h2
    rfl
  | cons ch rest ih =>
    intro ys full calls r h
    unfold accumChunks at h
    cases hstep : accumDeltas calls ch.tool_calls with
    | error e => rw [hstep] at h; exact absurd h (by simp)
    | ok calls1 =>
      rw [hstep] at h
      have hrest := ih _ _ calls1 r h
      have hall : allDeltas (ch :: rest) = ch.tool_calls ++ allDeltas rest := by
        simp [allDeltas]
      rw [hall, accumDeltas_append, hstep]
      exact hrest

/-- One step of the post-stream dispatch loop, unfolded. -/
theorem dispatchCalls_cons (yolo : Bool) (ans : Nat → Bool) (reg : Registry)
    (c : AccCall) (rest : List AccCall) (w : World) :
    dispatchCalls yolo ans reg (c :: rest) w
      = ((dispatchOne yolo ans reg c w).1
           ++ (dispatchCalls yolo ans reg rest (dispatchOne yolo ans reg c w).2.2).1,
         (dispatchOne yolo ans reg c w).2.1
           :: (dispatchCalls yolo ans reg rest (dispatchOne yolo ans reg c w).2.2).2.1,
         (dispatchCalls yolo ans reg rest (dispatchOne yolo ans reg c w).2.2).2.2) := rfl

/-- The dispatch loop records exactly one tool message per assembled
call. -/
theorem dispatchCalls_msgs_length (yolo : Bool) (ans : Nat → Bool) (reg : Registry) :
    ∀ (calls : List AccCall) (w : World),
      (dispatchCalls yolo ans reg calls w).2.1.length = calls.length := by
  intro calls
  induction calls with
  | nil => intro w; rfl
  | cons c rest ih =>
    intro w
    rw [dispatchCalls_cons]
    show ((dispatchCalls yolo ans reg rest (dispatchOne yolo ans reg c w).2.2).2.1).length + 1
      = rest.length + 1
    rw [ih]

/-- The `i`-th tool message is exactly `dispatchOne` of the `i`-th call,
run in the world reached after the earlier calls — each call is handled
individually, whatever happened to its siblings. -/
theorem dispatchCalls_msgs_get (yolo : Bool) (ans : Nat → Bool) (reg : Registry) :
    ∀ (calls : List AccCall) (w : World) (i : Nat) (m : SMsg),
      (dispatchCalls yolo ans reg calls w).2.1[i]? = some m →
      ∃ c, calls[i]? = some c ∧
        m = (dispatchOne yolo ans reg c
              (dispatchCalls yolo ans reg (calls.take i) w).2.2).2.1 := by
  intro calls
  induction calls with
  | nil =>
    intro w i m h
    exact absurd h (by simp [dispatchCalls])
  | cons c rest ih =>
    intro w i m h
    rw [dispatchCalls_cons] at h
    cases i with
    | zero =>
      rw [List.getElem?_cons_zero] at h
      refine ⟨c, List.getElem?_cons_zero, ?_⟩
      rw [(Option.some.inj h).symm]
      rfl
    | succ j =>
      rw [List.getElem?_cons_succ] at h
      obtain ⟨c', hc', hm⟩ := ih (dispatchOne yolo ans reg c w).2.2 j m h
      refine ⟨c', by rw [List.getElem?_cons_succ]; exact hc', ?_⟩
      rw [hm]
      rfl

/-- C4: in streaming mode, for every call index, the argument-text
fragments for that index are concatenated in arrival order — the merged
text is parsed as one JSON value only after the stream ends — and the
post-stream dispatch processes each assembled call individually: one tool
message per call, the `i`-th message determined by the `i`-th call alone
(given the world the earlier calls produced), and a call whose merged
text fails to parse gets exactly the invalid-JSON error message as its
own tool message while every sibling is still processed. -/
theorem stream_args_concat_and_isolation (chunks : List StreamChunk)
    (ys : List YieldItem) (full : String) (calls : List AccCall)
    (hacc : processStream chunks = .ok (ys, full, calls)) :
    (∀ i c, calls[i]? = some c → c.arguments = strJoin (argFragments chunks i)) ∧
    (∀ (yolo : Bool) (ans : Nat → Bool) (reg : Registry) (w : World),
      (dispatchCalls yolo ans reg calls w).2.1.length = calls.length ∧
      (∀ i m, (dispatchCalls yolo ans reg calls w).2.1[i]? = some m →
        ∃ c, calls[i]? = some c ∧
          m = (dispatchOne yolo ans reg c
                (dispatchCalls yolo ans reg (calls.take i) w).2.2).2.1 ∧
          (pyJsonLoads c.arguments = none →
            m = .tool c.id c.name (invalidJsonMsg c.name c.arguments)))) := by
  constructor
  · intro i c hc
    have hd := accumChunks_calls chunks [] "" [] (ys, full, calls) hacc
    have h := accumDeltas_argsAt (allDeltas chunks) [] calls hd i
    have hci : argsAt calls i = c.arguments := by
      unfold argsAt
      rw [hc]
    calc c.arguments = argsAt calls i := hci.symm
      _ = argsAt [] i ++ strJoin (fragsOf (allDeltas chunks) i) := h
      _ = strJoin (argFragments chunks i) := String.empty_append _
  · intro yolo ans reg w
    refine ⟨dispatchCalls_msgs_length yolo ans reg calls w, ?_⟩
    intro i m hm
    obtain ⟨c, hc, hmc⟩ := dispatchCalls_msgs_get yolo ans reg calls w i m hm
    refine ⟨c, hc, hmc, ?_⟩
    intro hparse
    rw [hmc]
    unfold dispatchOne
    rw [hparse]

/-- A stream delivering text, one call with invalid JSON arguments at
index 0, and one call at index 1 whose arguments arrive in two fragments
as in the claim's example. -/
def chunksW : List StreamChunk :=
  [⟨some "Hi", [⟨0, some "i0", some "toolA", some "nope"⟩,
                ⟨1, some "i1", some "toolB", some "\x7b\"a\":1"⟩]⟩,
   ⟨none, [⟨1, none, none, some "\x7d"⟩]⟩]

/-- The calls `chunksW` assembles. -/
def callsW : List AccCall :=
  [⟨"i0", "toolA", "nope"⟩, ⟨"i1", "toolB", "\x7b\"a\":1\x7d"⟩]

/-- Witness for C4: the two fragments for index 1 merge into the intended
document, and dispatch still records one tool message per call even though
call 0's arguments are invalid JSON. -/
theorem stream_args_concat_and_isolation_wit :
    ("\x7b\"a\":1\x7d" : String) = strJoin (argFragments chunksW 1) ∧
    pyJsonLoads (strJoin (argFragments chunksW 1)) = some (.obj [("a", .num 1)]) ∧
    (dispatchCalls false ansNo (duneRegistry echoExec) callsW w0).2.1.length = 2 := by
  have h := stream_args_concat_and_isolation chunksW [.text "Hi"] "Hi" callsW rfl
  have h1 := h.1 1 ⟨"i1", "toolB", "\x7b\"a\":1\x7d"⟩ rfl
  refine ⟨h1, ?_, (h.2 false ansNo (duneRegistry echoExec) w0).1⟩
  rw [← h1]
  rfl
